import Mathlib

/-!
# Verification of the AI Daily Digest pipeline (`ai_daily.py`)

A shallow embedding of the feed-ingestion / AI-curation pipeline of
`src/skills/ai-daily/scripts/ai_daily.py`, with theorems settling the
frozen specification claims.

Modelling conventions:
* Python strings are sequences of Unicode code points, embedded as
  `List Nat` (`PyStr`).  This is faithful to CPython, where a `str` may
  hold any code point (including surrogates, which Lean `Char` cannot).
* JSON values decoded by `json.loads` are embedded as the inductive
  `JVal`.  Python `dict`s keyed by JSON values are association lists in
  insertion order; Python's numeric key unification (`True == 1`) is
  modelled by `normKey`.
* A raised Python exception is modelled by `Option`/`none` at the point
  where the surrounding code catches it (or by totalising with the
  documented fallback when the source catches it locally).
* External collaborators (the network, the AI backend, `json.loads`,
  the wall clock, `strptime`) enter as explicit parameters: a feed's
  fetch result, a batch's parsed AI response, the current time, and the
  date-string parser are inputs of the embedded functions.
-/

set_option maxRecDepth 10000

/-- A Python string: a finite sequence of Unicode code points. -/
abbrev PyStr := List Nat

/-- Embed a Lean string literal as a `PyStr`. -/
def pys (s : String) : PyStr := s.data.map Char.toNat

/-- A JSON value as produced by `json.loads`
(integral numbers only; the claims do not involve fractional numbers). -/
inductive JVal where
  | jnull : JVal
  | jbool : Bool → JVal
  | jint : Int → JVal
  | jstr : PyStr → JVal
  | jlist : List JVal → JVal
  | jobj : List (PyStr × JVal) → JVal

mutual

/-- Structural (Python `==`-style) equality test on JSON values. -/
def jeq : JVal → JVal → Bool
  | .jnull, .jnull => true
  | .jbool a, .jbool b => a == b
  | .jint a, .jint b => a == b
  | .jstr a, .jstr b => a == b
  | .jlist as, .jlist bs => jeqList as bs
  | .jobj as, .jobj bs => jeqObj as bs
  | _, _ => false

def jeqList : List JVal → List JVal → Bool
  | [], [] => true
  | a :: as, b :: bs => jeq a b && jeqList as bs
  | _, _ => false

def jeqObj : List (PyStr × JVal) → List (PyStr × JVal) → Bool
  | [], [] => true
  | (k1, v1) :: as, (k2, v2) :: bs => k1 == k2 && jeq v1 v2 && jeqObj as bs
  | _, _ => false

end

mutual

theorem jeq_iff : (a b : JVal) → (jeq a b = true ↔ a = b)
  | .jnull, .jnull => by simp [jeq]
  | .jnull, .jbool _ => by simp [jeq]
  | .jnull, .jint _ => by simp [jeq]
  | .jnull, .jstr _ => by simp [jeq]
  | .jnull, .jlist _ => by simp [jeq]
  | .jnull, .jobj _ => by simp [jeq]
  | .jbool _, .jnull => by simp [jeq]
  | .jbool _, .jbool _ => by simp [jeq]
  | .jbool _, .jint _ => by simp [jeq]
  | .jbool _, .jstr _ => by simp [jeq]
  | .jbool _, .jlist _ => by simp [jeq]
  | .jbool _, .jobj _ => by simp [jeq]
  | .jint _, .jnull => by simp [jeq]
  | .jint _, .jbool _ => by simp [jeq]
  | .jint _, .jint _ => by simp [jeq]
  | .jint _, .jstr _ => by simp [jeq]
  | .jint _, .jlist _ => by simp [jeq]
  | .jint _, .jobj _ => by simp [jeq]
  | .jstr _, .jnull => by simp [jeq]
  | .jstr _, .jbool _ => by simp [jeq]
  | .jstr _, .jint _ => by simp [jeq]
  | .jstr _, .jstr _ => by simp [jeq]
  | .jstr _, .jlist _ => by simp [jeq]
  | .jstr _, .jobj _ => by simp [jeq]
  | .jlist _, .jnull => by simp [jeq]
  | .jlist _, .jbool _ => by simp [jeq]
  | .jlist _, .jint _ => by simp [jeq]
  | .jlist _, .jstr _ => by simp [jeq]
  | .jlist as, .jlist bs => by
      have h := jeqList_iff as bs
      simp [jeq, h]
  | .jlist _, .jobj _ => by simp [jeq]
  | .jobj _, .jnull => by simp [jeq]
  | .jobj _, .jbool _ => by simp [jeq]
  | .jobj _, .jint _ => by simp [jeq]
  | .jobj _, .jstr _ => by simp [jeq]
  | .jobj _, .jlist _ => by simp [jeq]
  | .jobj as, .jobj bs => by
      have h := jeqObj_iff as bs
      simp [jeq, h]

theorem jeqList_iff : (as bs : List JVal) → (jeqList as bs = true ↔ as = bs)
  | [], [] => by simp [jeqList]
  | [], _ :: _ => by simp [jeqList]
  | _ :: _, [] => by simp [jeqList]
  | a :: as, b :: bs => by
      have h1 := jeq_iff a b
      have h2 := jeqList_iff as bs
      simp [jeqList, Bool.and_eq_true, h1, h2]

theorem jeqObj_iff : (as bs : List (PyStr × JVal)) → (jeqObj as bs = true ↔ as = bs)
  | [], [] => by simp [jeqObj]
  | [], _ :: _ => by simp [jeqObj]
  | _ :: _, [] => by simp [jeqObj]
  | (k1, v1) :: as, (k2, v2) :: bs => by
      have h1 := jeq_iff v1 v2
      have h2 := jeqObj_iff as bs
      simp [jeqObj, Bool.and_eq_true, h1, h2, Prod.ext_iff, and_assoc]

end

instance : DecidableEq JVal := fun a b => decidable_of_iff _ (jeq_iff a b)

instance : BEq JVal := ⟨fun a b => jeq a b⟩

instance : LawfulBEq JVal where
  eq_of_beq h := (jeq_iff _ _).mp h
  rfl := (jeq_iff _ _).mpr rfl

/-- Python `int(v)`: succeeds on ints, bools and integer-shaped strings
(optionally signed, surrounded by whitespace); raises (`none`)
otherwise. -/
def pyIntDigits : List Nat → Option Int
  | [] => none
  | ds => ds.foldlM (fun acc d =>
      if 48 ≤ d ∧ d ≤ 57 then some (acc * 10 + (d - 48 : Nat)) else none) (0 : Int)

/-- Whitespace code points recognised by Python's `str.strip`
(the ASCII subset, enough for the inputs in scope). -/
def pyIsSpace (c : Nat) : Bool := c = 32 ∨ c = 9 ∨ c = 10 ∨ c = 13 ∨ c = 11 ∨ c = 12

/-- Python `str.strip()` (ASCII whitespace). -/
def pyStrip (s : PyStr) : PyStr :=
  (s.dropWhile pyIsSpace).reverse.dropWhile pyIsSpace |>.reverse

/-- Parse a Python integer literal string (as accepted by `int(str)`). -/
def pyParseInt (s : PyStr) : Option Int :=
  match pyStrip s with
  | 43 :: ds => pyIntDigits ds
  | 45 :: ds => (pyIntDigits ds).map Neg.neg
  | ds => pyIntDigits ds

/-- Python `int(v)` on a JSON value; `none` models the raised
`TypeError`/`ValueError`. -/
def pyInt : JVal → Option Int
  | .jint n => some n
  | .jbool b => some (if b then 1 else 0)
  | .jstr s => pyParseInt s
  | _ => none

/-- Python's hash-based key unification: `True`/`1` and `False`/`0`
are the same dict key. -/
def normKey : JVal → JVal
  | .jbool b => .jint (if b then 1 else 0)
  | v => v

/-- Only hashable values may be dict keys; lists and dicts raise
`TypeError`. -/
def hashable : JVal → Bool
  | .jlist _ => false
  | .jobj _ => false
  | _ => true

/-- A Python dict with `JVal` keys, in insertion order. -/
abbrev PyDict (V : Type) := List (JVal × V)

/-- Models `d[k] = v`: replace in place if the key exists, else append. -/
def dictInsert {V : Type} (d : PyDict V) (k : JVal) (v : V) : PyDict V :=
  match d with
  | [] => [(k, v)]
  | (k0, v0) :: rest =>
    if normKey k0 = normKey k then (k0, v) :: rest
    else (k0, v0) :: dictInsert rest k v

/-- Models `d.get(k)` (returns `None` when absent). -/
def dictLookup {V : Type} (d : PyDict V) (k : JVal) : Option V :=
  match d with
  | [] => none
  | (k0, v0) :: rest => if normKey k0 = normKey k then some v0 else dictLookup rest k

/-- Models `d1.update(d2)`: merge, later entries overriding. -/
def dictUpdate {V : Type} (d1 d2 : PyDict V) : PyDict V :=
  d2.foldl (fun acc (kv : JVal × V) => dictInsert acc kv.1 kv.2) d1

/-- Models `key in pythonDict` membership on a JSON object
(association list with `PyStr` keys). -/
def objLookup (o : List (PyStr × JVal)) (k : PyStr) : Option JVal :=
  match o with
  | [] => none
  | (k0, v0) :: rest => if k0 = k then some v0 else objLookup rest k

/-- Models `result.get(k, default)` on a JSON object. -/
def objGetD (o : List (PyStr × JVal)) (k : PyStr) (dflt : JVal) : JVal :=
  (objLookup o k).getD dflt

/-- Is `pat` a contiguous substring of `s`? (Python `in` on strings.) -/
def strContains (s pat : PyStr) : Bool :=
  match s with
  | [] => pat.isEmpty
  | _ :: rest => pat.isPrefixOf s || strContains rest pat

/-- Python `'key' in parsed` for an arbitrary decoded JSON value:
substring test on strings, element equality on lists, key membership on
objects, `TypeError` (`none`) on numbers/booleans/null. -/
def pyContains (parsed : JVal) (k : String) : Option Bool :=
  match parsed with
  | .jobj o => some (objLookup o (pys k)).isSome
  | .jlist l => some (l.contains (.jstr (pys k)))
  | .jstr s => some (strContains s (pys k))
  | _ => none

/-- Python `parsed['key']`: field access on an object (`KeyError`/
`TypeError` as `none` otherwise). -/
def pySubscript (parsed : JVal) (k : String) : Option JVal :=
  match parsed with
  | .jobj o => objLookup o (pys k)
  | _ => none

/-- A Python `datetime`: naive wall-clock seconds plus an optional
`utcoffset` in seconds (`none` = naive, no `tzinfo`). -/
structure PyDateTime where
  wall : Int
  tz : Option Int
  deriving DecidableEq

/-- A normalized feed entry (`@dataclass Article`, `ai_daily.py` 152-159). -/
structure Article where
  title : PyStr
  link : PyStr
  pub_date : PyDateTime
  description : PyStr
  source_name : PyStr
  source_url : PyStr
  deriving DecidableEq

/-- Models `BATCH_SIZE = 10` (line 37). -/
def BATCH_SIZE : Nat := 10

/-- Models `MAX_CONCURRENT_REQUESTS = 2` (line 38). -/
def MAX_CONCURRENT_REQUESTS : Nat := 2

/-- Models `VALID_CATEGORIES` (line 145). -/
def VALID_CATEGORIES : List PyStr :=
  [pys "ai-ml", pys "security", pys "engineering", pys "tools", pys "opinion", pys "other"]

/-- One element of the `indexed` list sent to the AI
(lines 572-580 / 690-699; the scoring variant does not use `link`). -/
structure BatchItem where
  index : Nat
  title : PyStr
  description : PyStr
  sourceName : PyStr
  link : PyStr
  deriving DecidableEq

/-- Models `indexed = [{'index': i, ...} for i, a in enumerate(articles)]`. -/
def indexedArticles (articles : List Article) : List BatchItem :=
  articles.enum.map (fun p => ⟨p.1, p.2.title, p.2.description, p.2.source_name, p.2.link⟩)

/-- Models `indexed[i:i + BATCH_SIZE]` slicing into consecutive batches
(lines 582 / 701). -/
def chunksOfAux (size : Nat) : Nat → List α → List (List α)
  | _, [] => []
  | 0, l => [l]
  | fuel + 1, x :: xs =>
    if size = 0 then [x :: xs]
    else (x :: xs).take size :: chunksOfAux size fuel ((x :: xs).drop size)

def chunksOf (size : Nat) (l : List α) : List (List α) := chunksOfAux size l.length l

/-- The result of one AI batch call as seen by the `try` body: either a
raised exception (transport error, non-200 status, or `json.loads`
failure inside `parse_json_response`) or the decoded JSON value. -/
inductive AIOutcome where
  | fail : AIOutcome
  | ok : JVal → AIOutcome
  deriving DecidableEq

/-- Per-article AI score output (the values stored in `results[idx]`,
lines 606-612).  `keywords` keeps the raw JSON elements, as the source
stores them unconverted. -/
structure ScoreRec where
  relevance : Int
  quality : Int
  timeliness : Int
  category : PyStr
  keywords : List JVal
  deriving DecidableEq

/-- The default Score Record (line 617 and lines 1069-1075). -/
def defaultScore : ScoreRec := ⟨5, 5, 5, pys "other", []⟩

/-- Models `clamp = lambda v: min(10, max(1, int(v)))` (line 602); `none` when
`int(v)` raises on a non-numeric value. -/
def clampDim (v : JVal) : Option Int := (pyInt v).map (fun n => min 10 (max 1 n))

/-- Models `cat not in VALID_CATEGORIES` (line 604): membership of a JSON value
in the category set; unhashable values raise `TypeError` (`none`). -/
def catInValid (cat : JVal) : Option Bool :=
  if hashable cat then
    some (match cat with
          | .jstr s => VALID_CATEGORIES.contains s
          | _ => false)
  else none

/-- The score record built for one entry of a scoring response
(lines 602-612): category validated against the closed set, the three
dimensions clamped (`none` when `int` raises on a non-numeric value or
the category membership test raises on an unhashable value), keywords
capped at 4 if a list, else empty. -/
def scoreEntryRec (o : List (PyStr × JVal)) : Option ScoreRec := do
  let cat0 := objGetD o (pys "category") (.jstr (pys "other"))
  let catOk ← catInValid cat0
  let cat : PyStr :=
    if catOk then (match cat0 with | .jstr s => s | _ => pys "other") else pys "other"
  let rel ← clampDim (objGetD o (pys "relevance") (.jint 5))
  let qua ← clampDim (objGetD o (pys "quality") (.jint 5))
  let tim ← clampDim (objGetD o (pys "timeliness") (.jint 5))
  let kws : List JVal :=
    match objLookup o (pys "keywords") with
    | some (.jlist l) => l.take 4
    | _ => []
  pure ⟨rel, qua, tim, cat, kws⟩

/-- One iteration of the scoring result loop (lines 599-612).  `none`
models an exception escaping the loop body: a non-dict entry, a
non-numeric dimension value, or an unhashable category or index.  An
entry whose `index` is absent or JSON `null` (both are Python `None`)
is skipped. -/
def scoreResultStep (acc : PyDict ScoreRec) (result : JVal) : Option (PyDict ScoreRec) :=
  match result with
  | .jobj o =>
    match objLookup o (pys "index") with
    | none => some acc
    | some idx =>
      if idx = .jnull then some acc
      else do
        let sr ← scoreEntryRec o
        if hashable idx then some (dictInsert acc idx sr) else none
  | _ => none

/-- Build the per-batch score mapping from a decoded AI response
(lines 597-613); `none` models an exception inside the `try`. -/
def scoresOfResponse (parsed : JVal) : Option (PyDict ScoreRec) := do
  let hasKey ← pyContains parsed "results"
  if hasKey then
    match pySubscript parsed "results" with
    | none => none
    | some (.jlist items) => items.foldlM scoreResultStep []
    | some _ => some []
  else
    some []

/-- Models `score_batch` (lines 591-617): on any exception while building,
calling, or parsing, every article in the batch gets `defaultScore`. -/
def score_batch (batch : List BatchItem) (outcome : AIOutcome) : PyDict ScoreRec :=
  let fallback : PyDict ScoreRec :=
    batch.map (fun it => (JVal.jint it.index, defaultScore))
  match outcome with
  | .fail => fallback
  | .ok parsed =>
    match scoresOfResponse parsed with
    | some results => results
    | none => fallback

/-- Models `score_articles_with_ai` (lines 565-627).  The AI call for batch `k`
is abstracted by `outcomes k`.  Batch results are merged with
`all_scores.update(results)` in batch order; the wave grouping
(`MAX_CONCURRENT_REQUESTS` at a time) only bounds concurrency and does
not change that order. -/
def score_articles_with_ai (articles : List Article) (outcomes : Nat → AIOutcome) :
    PyDict ScoreRec :=
  let batches := chunksOf BATCH_SIZE (indexedArticles articles)
  batches.enum.foldl (fun acc p => dictUpdate acc (score_batch p.2 (outcomes p.1))) []

/-- Models `scores.get(i, {...default...})` at consumption (lines 1069-1075). -/
def consumedScore (scores : PyDict ScoreRec) (i : Nat) : ScoreRec :=
  (dictLookup scores (.jint i)).getD defaultScore

/-- One element of `scored_articles` (lines 1077-1081). -/
structure ScoredEntry where
  article : Article
  total_score : Int
  score_data : ScoreRec
  deriving DecidableEq

/-- Lines 1067-1081: pair every time-filtered article with its consumed
score record and `total_score = relevance + quality + timeliness`. -/
def mkScoredEntries (articles : List Article) (scores : PyDict ScoreRec) :
    List ScoredEntry :=
  articles.enum.map (fun p =>
    let sd := consumedScore scores p.1
    ⟨p.2, sd.relevance + sd.quality + sd.timeliness, sd⟩)

/-- Stable descending insertion: `x` is placed before the first element
whose key is not greater than `key x`. -/
def insertDesc (key : α → Int) (x : α) : List α → List α
  | [] => [x]
  | y :: ys => if key y ≤ key x then x :: y :: ys else y :: insertDesc key x ys

/-- Models `list.sort(key=..., reverse=True)`: Python's sort is stable, and a
stable descending sort is uniquely determined by its sortedness and
stability properties, so stable insertion sort is an exact model. -/
def pySortDesc (key : α → Int) : List α → List α
  | [] => []
  | x :: xs => insertDesc key x (pySortDesc key xs)

/-- Models `scored_articles.sort(key=lambda x: x['total_score'], reverse=True)`
(line 1083). -/
def rank_articles (l : List ScoredEntry) : List ScoredEntry :=
  pySortDesc (fun e => e.total_score) l

/-- Models `top_articles_data = scored_articles[:args.top_n]` (line 1084). -/
def top_articles (l : List ScoredEntry) (n : Nat) : List ScoredEntry :=
  (rank_articles l).take n

/-- Per-article AI summary output (the values stored in `results[idx]`,
lines 721-725).  Values are kept as raw JSON, as the source stores
them unconverted. -/
structure SumRec where
  titleZh : JVal
  summary : JVal
  reason : JVal
  deriving DecidableEq

/-- One iteration of the summary result loop (lines 718-725).  `none`
models an exception escaping the loop body. -/
def summaryResultStep (acc : PyDict SumRec) (result : JVal) : Option (PyDict SumRec) :=
  match result with
  | .jobj o =>
    match objLookup o (pys "index") with
    | none => some acc
    | some .jnull => some acc
    | some idx =>
      let sr : SumRec :=
        ⟨objGetD o (pys "titleZh") (.jstr []),
         objGetD o (pys "summary") (.jstr []),
         objGetD o (pys "reason") (.jstr [])⟩
      if hashable idx then some (dictInsert acc idx sr) else none
  | _ => none

/-- Build the per-batch summary mapping from a decoded AI response
(lines 716-726). -/
def summariesOfResponse (parsed : JVal) : Option (PyDict SumRec) := do
  let hasKey ← pyContains parsed "results"
  if hasKey then
    match pySubscript parsed "results" with
    | none => none
    | some (.jlist items) => items.foldlM summaryResultStep []
    | some _ => some []
  else some []

/-- Models `summarize_batch` (lines 710-730): on any exception the fallback
record uses the article's own title for both the translated title and
the summary, and an empty rationale. -/
def summarize_batch (batch : List BatchItem) (outcome : AIOutcome) : PyDict SumRec :=
  let fallback : PyDict SumRec :=
    batch.map (fun it => (JVal.jint it.index, ⟨.jstr it.title, .jstr it.title, .jstr []⟩))
  match outcome with
  | .fail => fallback
  | .ok parsed =>
    match summariesOfResponse parsed with
    | some results => results
    | none => fallback

/-- Models `summarize_articles` (lines 682-740), with the AI call for batch `k`
abstracted by `outcomes k` (the `lang` parameter only affects the
prompt text, which is external to the mapping built here). -/
def summarize_articles (articles : List Article) (outcomes : Nat → AIOutcome) : PyDict SumRec :=
  let batches := chunksOf BATCH_SIZE (indexedArticles articles)
  batches.enum.foldl (fun acc p => dictUpdate acc (summarize_batch p.2 (outcomes p.1))) []

/-- Models `summaries.get(i, {...})` at consumption (lines 1098-1102): the
translated title defaults to the article title, the summary to the
first 200 characters of the description, the reason to empty. -/
def consumedSummary (sums : PyDict SumRec) (a : Article) (i : Nat) : SumRec :=
  (dictLookup sums (.jint i)).getD ⟨.jstr a.title, .jstr (a.description.take 200), .jstr []⟩

/-- Models `@dataclass ScoredArticle` (lines 162-177); the
`score_breakdown` dict with its three fixed keys is flattened into
three integer fields. -/
structure ScoredArticle where
  title : PyStr
  link : PyStr
  pub_date : PyDateTime
  description : PyStr
  source_name : PyStr
  source_url : PyStr
  score : Int
  relevance : Int
  quality : Int
  timeliness : Int
  category : PyStr
  keywords : List JVal
  title_zh : JVal
  summary : JVal
  reason : JVal
  deriving DecidableEq

/-- Lines 1094-1122: assemble the final `ScoredArticle`s from the top-N
entries and the summary mapping. -/
def mkFinalArticles (top : List ScoredEntry) (sums : PyDict SumRec) : List ScoredArticle :=
  top.enum.map (fun p =>
    let a := p.2.article
    let sd := p.2.score_data
    let sm := consumedSummary sums a p.1
    ⟨a.title, a.link, a.pub_date, a.description, a.source_name, a.source_url,
     p.2.total_score, sd.relevance, sd.quality, sd.timeliness, sd.category, sd.keywords,
     sm.titleZh, sm.summary, sm.reason⟩)

/-- Models `pub_date.replace(tzinfo=timezone.utc)`: overwrite the timezone
information, keeping the wall-clock value unchanged. -/
def replaceTzUtc (d : PyDateTime) : PyDateTime := ⟨d.wall, some 0⟩

/-- The instant (seconds since the epoch) denoted by an aware datetime:
wall-clock minus utcoffset.  Python compares and subtracts aware
datetimes by instant. -/
def dtInstant (d : PyDateTime) : Int := d.wall - d.tz.getD 0

/-- Models `cutoff_time = datetime.now(timezone.utc) - timedelta(hours=args.hours)`
(line 1053), as an epoch instant. -/
def cutoff_time (nowEpoch : Int) (hours : Int) : Int := nowEpoch - hours * 3600

/-- The recency filter (line 1054):
`[a for a in all_articles if a.pub_date.replace(tzinfo=timezone.utc) > cutoff_time]`. -/
def recent_filter (arts : List Article) (nowEpoch hours : Int) : List Article :=
  arts.filter (fun a => cutoff_time nowEpoch hours < dtInstant (replaceTzUtc a.pub_date))

/-- The rendered relative-age value produced by `humanize_time`. -/
inductive HumanAge where
  | minutesAgo : Int → HumanAge
  | hoursAgo : Int → HumanAge
  | daysAgo : Int → HumanAge
  | absoluteDate : PyDateTime → HumanAge
  deriving DecidableEq

/-- The datetime `humanize_time` measures from (lines 787-788): only a
naive datetime is reinterpreted as UTC; an aware one keeps its
offset. -/
def humanizeRef (d : PyDateTime) : PyDateTime :=
  if d.tz = none then replaceTzUtc d else d

/-- Models `humanize_time` (lines 784-802), with `datetime.now(timezone.utc)`
passed in as the epoch instant `nowEpoch`.  Python's `int()` truncates
toward zero (`Int.tdiv`) and `//` floors (`Int.fdiv`). -/
def humanize_time (nowEpoch : Int) (d : PyDateTime) : HumanAge :=
  let pub := humanizeRef d
  let diffMins : Int := Int.tdiv (nowEpoch - dtInstant pub) 60
  let diffHours : Int := Int.fdiv diffMins 60
  let diffDays : Int := Int.fdiv diffHours 24
  if diffMins < 60 then .minutesAgo diffMins
  else if diffHours < 24 then .hoursAgo diffHours
  else if diffDays < 7 then .daysAgo diffDays
  else .absoluteDate pub

/-- The top-3 showcase block of `generate_digest_report`
(lines 921-939): present only when at least 3 articles qualify,
showing `articles[i]` for `i in range(min(3, len(articles)))`. -/
def showcase_articles (articles : List ScoredArticle) : List ScoredArticle :=
  if 3 ≤ articles.length then articles.take 3 else []

/-- One step of the `cat_groups` construction (lines 968-972): append
the article to its category's list, creating the group at the end on
first sight (Python dicts preserve insertion order). -/
def addToGroups : List (PyStr × List ScoredArticle) → ScoredArticle →
    List (PyStr × List ScoredArticle)
  | [], a => [(a.category, [a])]
  | (c, g) :: gs, a =>
    if c = a.category then (c, g ++ [a]) :: gs else (c, g) :: addToGroups gs a

/-- Models `cat_groups` (lines 968-972), iterating over **all** articles. -/
def cat_groups (articles : List ScoredArticle) : List (PyStr × List ScoredArticle) :=
  articles.foldl addToGroups []

/-- Models `sorted_cats = sorted(cat_groups.items(), key=lambda x: len(x[1]), reverse=True)`
(line 974). -/
def sorted_cats (articles : List ScoredArticle) : List (PyStr × List ScoredArticle) :=
  pySortDesc (fun p => (p.2.length : Int)) (cat_groups articles)

/-- The articles listed in the category-grouped sections, in rendered
order (lines 977-992). -/
def category_section_articles (articles : List ScoredArticle) : List ScoredArticle :=
  ((sorted_cats articles).map Prod.snd).flatten

/-- The per-article total displayed in a category section (line 983):
recomputed as the sum of the score breakdown. -/
def rendered_total (a : ScoredArticle) : Int := a.relevance + a.quality + a.timeliness

/-- Index of the first occurrence of `pat` as a substring of `s`. -/
def findSubIdx (s pat : PyStr) : Option Nat :=
  match s with
  | [] => if pat.isEmpty then some 0 else none
  | _ :: rest => if pat.isPrefixOf s then some 0 else (findSubIdx rest pat).map (· + 1)

/-- Scanner for `removeTags`: in tag mode (`true`) skip up to and
including the closing `>`. -/
def removeTagsAux : Bool → PyStr → PyStr
  | _, [] => []
  | true, c :: rest =>
    if c = 62 then removeTagsAux false rest else removeTagsAux true rest
  | false, c :: rest =>
    if c = 60 ∧ rest.contains 62 then removeTagsAux true rest
    else c :: removeTagsAux false rest

/-- Models `re.sub(r'<[^>]*>', '', text)` (line 186): delete every `<...>`
block up to the next `>`; a `<` with no later `>` is literal text. -/
def removeTags (s : PyStr) : PyStr := removeTagsAux false s

def isDigitCp (c : Nat) : Bool := 48 ≤ c && c ≤ 57

def isHexCp (c : Nat) : Bool := isDigitCp c || (97 ≤ c && c ≤ 102) || (65 ≤ c && c ≤ 70)

def hexVal (c : Nat) : Nat := if isDigitCp c then c - 48 else if 97 ≤ c then c - 87 else c - 55

def digitsVal (ds : List Nat) : Nat := ds.foldl (fun a c => a * 10 + (c - 48)) 0

def hexDigitsVal (ds : List Nat) : Nat := ds.foldl (fun a c => a * 16 + hexVal c) 0

/-- The windows-1252 remapping applied by `html.unescape` to numeric
references in `0x80`-`0x9F` (the `_invalid_charrefs` table). -/
def win1252 (n : Nat) : Nat :=
  if n = 0x80 then 0x20AC else if n = 0x82 then 0x201A else if n = 0x83 then 0x192
  else if n = 0x84 then 0x201E else if n = 0x85 then 0x2026 else if n = 0x86 then 0x2020
  else if n = 0x87 then 0x2021 else if n = 0x88 then 0x2C6 else if n = 0x89 then 0x2030
  else if n = 0x8A then 0x160 else if n = 0x8B then 0x2039 else if n = 0x8C then 0x152
  else if n = 0x8E then 0x17D else if n = 0x91 then 0x2018 else if n = 0x92 then 0x2019
  else if n = 0x93 then 0x201C else if n = 0x94 then 0x201D else if n = 0x95 then 0x2022
  else if n = 0x96 then 0x2013 else if n = 0x97 then 0x2014 else if n = 0x98 then 0x2DC
  else if n = 0x99 then 0x2122 else if n = 0x9A then 0x161 else if n = 0x9B then 0x203A
  else if n = 0x9C then 0x153 else if n = 0x9E then 0x17E else if n = 0x9F then 0x178
  else n

/-- Unicode noncharacters (part of `html`'s `_invalid_codepoints`). -/
def isNonChar (n : Nat) : Bool :=
  (0xFDD0 ≤ n && n ≤ 0xFDEF) || n % 0x10000 = 0xFFFE || n % 0x10000 = 0xFFFF

/-- Control characters and noncharacters that `html.unescape` drops
(the `_invalid_codepoints` set). -/
def isInvalidCp (n : Nat) : Bool :=
  (1 ≤ n && n ≤ 8) || n = 0xb || (0xe ≤ n && n ≤ 0x1f) || n = 0x7f || isNonChar n

/-- Decode one numeric character reference the way `html.unescape`
does: windows-1252 remapping, `U+FFFD` for the null, surrogate and
beyond-Unicode ranges, and deletion of invalid control characters.  In
particular an out-of-range code **never raises** here. -/
def html5NumRef (n : Nat) : PyStr :=
  if n = 0 then [0xFFFD]
  else if n = 0xd then [0xd]
  else if 0x80 ≤ n ∧ n ≤ 0x9f then [win1252 n]
  else if (0xD800 ≤ n ∧ n ≤ 0xDFFF) ∨ 0x10FFFF < n then [0xFFFD]
  else if isInvalidCp n then []
  else [n]

/-- The named references of the `html5` table used by `html.unescape`,
restricted to the entities arising in the inputs in scope (the CPython
table has ~2000 entries; the lookup semantics below are identical). -/
def html5Named : List (PyStr × PyStr) :=
  [(pys "amp;", [38]), (pys "amp", [38]),
   (pys "lt;", [60]), (pys "lt", [60]),
   (pys "gt;", [62]), (pys "gt", [62]),
   (pys "quot;", [34]), (pys "quot", [34]),
   (pys "apos;", [39]),
   (pys "nbsp;", [160]), (pys "nbsp", [160]),
   (pys "hellip;", [0x2026]), (pys "mdash;", [0x2014]), (pys "ndash;", [0x2013]),
   (pys "copy;", [169]), (pys "copy", [169])]

/-- Characters allowed inside a named reference token
(`[^\t\n\f <&#;]` in the `html` module's charref regex). -/
def isNameTokCp (c : Nat) : Bool :=
  !(c = 9 || c = 10 || c = 12 || c = 32 || c = 60 || c = 38 || c = 35 || c = 59)

/-- The longest-prefix fallback of `html._replace_charref` for a named
token not in the table (prefixes of length at least 2, longest
first). -/
def namedPrefixLookup (s : PyStr) : (x : Nat) → Option (PyStr × PyStr)
  | 0 => none
  | 1 => none
  | x + 2 =>
    match html5Named.lookup (s.take (x + 2)) with
    | some v => some (v, s.drop (x + 2))
    | none => namedPrefixLookup s (x + 1)

/-- Replacement text for a matched named-reference token
(`html._replace_charref`, named branch). -/
def namedRefResult (s : PyStr) : PyStr :=
  match html5Named.lookup s with
  | some v => v
  | none =>
    match namedPrefixLookup s (s.length - 1) with
    | some (v, leftover) => v ++ leftover
    | none => 38 :: s

/-- Match one character reference right after a `&`: returns the
replacement text and the number of code points consumed after the `&`,
or `none` when the charref regex does not match at this position. -/
def charrefAfterAmp (rest : PyStr) : Option (PyStr × Nat) :=
  match rest with
  | 35 :: r2 =>
    match r2 with
    | x :: r3 =>
      if x = 120 ∨ x = 88 then
        let ds := r3.takeWhile isHexCp
        if ds.isEmpty then none
        else if (r3.drop ds.length).head? = some 59 then
          some (html5NumRef (hexDigitsVal ds), 2 + ds.length + 1)
        else some (html5NumRef (hexDigitsVal ds), 2 + ds.length)
      else
        let ds := r2.takeWhile isDigitCp
        if ds.isEmpty then none
        else if (r2.drop ds.length).head? = some 59 then
          some (html5NumRef (digitsVal ds), 1 + ds.length + 1)
        else some (html5NumRef (digitsVal ds), 1 + ds.length)
    | [] => none
  | _ =>
    let tok := (rest.takeWhile isNameTokCp).take 32
    if tok.isEmpty then none
    else if (rest.drop tok.length).head? = some 59 then
      some (namedRefResult (tok ++ [59]), tok.length + 1)
    else some (namedRefResult tok, tok.length)

/-- Fuelled scanner for `htmlUnescape` (the fuel, initialised to the
string length, dominates the number of steps, each of which consumes
at least one code point). -/
def htmlUnescapeAux : Nat → PyStr → PyStr
  | 0, s => s
  | _ + 1, [] => []
  | fuel + 1, c :: rest =>
    if c = 38 then
      match charrefAfterAmp rest with
      | some (rep, n) => rep ++ htmlUnescapeAux fuel (rest.drop n)
      | none => c :: htmlUnescapeAux fuel rest
    else c :: htmlUnescapeAux fuel rest

/-- Models `html.unescape(text)` (line 188): one left-to-right pass replacing
character references; unmatched `&` is literal. -/
def htmlUnescape (s : PyStr) : PyStr := htmlUnescapeAux s.length s

/-- Models `chr(code)` (line 192): raises `ValueError` (`none`) above
`0x10FFFF` (CPython accepts surrogate code points). -/
def pyChr (n : Nat) : Option Nat := if n ≤ 0x10FFFF then some n else none

/-- Models `re.sub(r'&#(\d+);', decode_numeric, text)` (lines 190-193): the
second, hand-written numeric-reference pass; `none` models the
`ValueError` raised by `chr` on a decoded code above the Unicode
range. -/
def decodeNumericAux : Nat → PyStr → Option PyStr
  | 0, s => some s
  | _ + 1, [] => some []
  | fuel + 1, 38 :: 35 :: r2 =>
    let ds := r2.takeWhile isDigitCp
    if ds.isEmpty ∨ (r2.drop ds.length).head? ≠ some 59 then
      (38 :: ·) <$> decodeNumericAux fuel (35 :: r2)
    else do
      let ch ← pyChr (digitsVal ds)
      let tail ← decodeNumericAux fuel (r2.drop (ds.length + 1))
      pure (ch :: tail)
  | fuel + 1, c :: rest => (c :: ·) <$> decodeNumericAux fuel rest

def decodeNumericRefs (s : PyStr) : Option PyStr := decodeNumericAux s.length s

/-- Models `strip_html` (lines 183-194): tag removal, stdlib entity decoding,
then the custom numeric pass whose `chr` call can raise (`none`),
then `.strip()`. -/
def strip_html (text : PyStr) : Option PyStr :=
  (decodeNumericRefs (htmlUnescape (removeTags text))).map pyStrip

/-- Models `extract_cdata` (lines 197-200): the first CDATA block's content,
or the whole text when the pattern does not occur. -/
def extract_cdata (text : PyStr) : PyStr :=
  match findSubIdx text (pys "<![CDATA[") with
  | none => text
  | some i =>
    let after := text.drop (i + 9)
    match findSubIdx after (pys "]]>") with
    | none => text
    | some j => after.take j

/-- An XML element as delivered by `ET.fromstring`: fully qualified tag
(a default namespace appears as a `{uri}`-wrapped prefix in the tag),
attributes, text content (`none` when absent), and child elements.
The XML parser has already unwrapped CDATA sections into `text` and
decoded XML entities. -/
inductive XElem where
  | mk : PyStr → List (PyStr × PyStr) → Option PyStr → List XElem → XElem

def XElem.tag : XElem → PyStr
  | .mk t _ _ _ => t

def XElem.attrs : XElem → List (PyStr × PyStr)
  | .mk _ a _ _ => a

def XElem.text : XElem → Option PyStr
  | .mk _ _ t _ => t

def XElem.children : XElem → List XElem
  | .mk _ _ _ c => c

/-- Models `element.get(name, default)` on attributes. -/
def XElem.getAttr (e : XElem) (name : PyStr) (dflt : PyStr) : PyStr :=
  (e.attrs.lookup name).getD dflt

/-- Models `element.get(name)` with no default (`None` when absent). -/
def XElem.attrVal (e : XElem) (name : PyStr) : Option PyStr :=
  e.attrs.lookup name

/-- Models `f'{{{namespace}}}{tag_name}'` qualification (applied only when the
namespace is nonempty, as in `get_tag_content`). -/
def qualTag (ns : PyStr) (tag : PyStr) : PyStr :=
  if ns.isEmpty then tag else (123 :: ns) ++ (125 :: tag)

/-- Models `element.find(tag)`: first direct child with the given tag. -/
def XElem.findTag (e : XElem) (tag : PyStr) : Option XElem :=
  e.children.find? (fun c => c.tag == tag)

/-- Models `element.findall(tag)`: all direct children with the given tag. -/
def XElem.findAllTag (e : XElem) (tag : PyStr) : List XElem :=
  e.children.filter (fun c => c.tag == tag)

/-- Models `root.findall(name, {'': ns} if ns else {})` followed by the
namespaced fallback (lines 281-283, 291-293, 319-321): both lookups
resolve to the same qualified tag, so a single qualified filter is an
exact model. -/
def findAllNS (root : XElem) (name : PyStr) (ns : PyStr) : List XElem :=
  root.findAllTag (qualTag ns name)

/-- Models `get_tag_content` (lines 203-211).  `element.find` raises
`SyntaxError` (`none`) on a tag of the unqualified `prefix:name` form
(as happens for `dc:date` on an un-namespaced feed, `ElementPath`'s
prefix-map check); otherwise the text of the first matching child if
it is non-None and nonempty, CDATA-unwrapped, else `''`. -/
def get_tag_content (element : XElem) (tagName : PyStr) (ns : PyStr) : Option PyStr :=
  let q := qualTag ns tagName
  if q.head? ≠ some 123 ∧ q.contains 58 then none
  else some (match element.findTag q with
    | some child =>
      match child.text with
      | some t => if t.isEmpty then [] else extract_cdata t
      | none => []
    | none => [])

/-- Python `a or b` on strings: `a` if nonempty, else `b`. -/
def pyOr (a b : PyStr) : PyStr := if a.isEmpty then b else a

/-- The Atom link-selection loop (lines 290-300): the `href` of the
first `link` element having a nonempty `href` whose `rel` attribute is
`alternate` or missing/empty; `''` when no element qualifies. -/
def atomLink : List XElem → PyStr
  | [] => []
  | e :: es =>
    let rel := e.getAttr (pys "rel") []
    let href := e.getAttr (pys "href") []
    if ¬href.isEmpty ∧ (rel = pys "alternate" ∨ rel.isEmpty) then href
    else atomLink es

/-- A `RSS_FEEDS` catalog entry (lines 41-134). -/
structure FeedInfo where
  name : PyStr
  xmlUrl : PyStr
  htmlUrl : PyStr
  deriving DecidableEq

/-- Lines 275-277: extract the namespace URI from a qualified root
tag; `tag.index` raises `ValueError` (`none`) on an unmatched `{`. -/
def xmlNamespaceOf (tag : PyStr) : Option PyStr :=
  match tag with
  | 123 :: rest =>
    match findSubIdx (123 :: rest) [125] with
    | some j => some (((123 :: rest).drop 1).take (j - 1))
    | none => none
  | _ => some []

/-- Process one Atom `entry` (lines 285-316): `none` = an exception
propagating out of the loop (only `strip_html` can raise); `some none`
= entry skipped (no title and no link); `some (some a)` = article. -/
def parseAtomEntry (dateParser : PyStr → Option PyDateTime) (now : PyDateTime)
    (feed : FeedInfo) (ns : PyStr) (entry : XElem) : Option (Option Article) := do
  let t0 ← get_tag_content entry (pys "title") ns
  let title ← strip_html t0
  let link := atomLink (findAllNS entry (pys "link") ns)
  let p1 ← get_tag_content entry (pys "published") ns
  let pubStr ← if ¬p1.isEmpty then pure p1 else get_tag_content entry (pys "updated") ns
  let pubDate := (dateParser pubStr).getD now
  let d1 ← get_tag_content entry (pys "summary") ns
  let dRaw ← if ¬d1.isEmpty then pure d1 else get_tag_content entry (pys "content") ns
  let descr ← strip_html dRaw
  if ¬title.isEmpty ∨ ¬link.isEmpty then
    pure (some ⟨title, link, pubDate, descr.take 500, feed.name, feed.htmlUrl⟩)
  else pure none

/-- Process one RSS `item` (lines 323-353), conventions as in
`parseAtomEntry`. -/
def parseRssItem (dateParser : PyStr → Option PyDateTime) (now : PyDateTime)
    (feed : FeedInfo) (ns : PyStr) (item : XElem) : Option (Option Article) := do
  let t0 ← get_tag_content item (pys "title") ns
  let title ← strip_html t0
  let l1 ← get_tag_content item (pys "link") ns
  let link ← if ¬l1.isEmpty then pure l1 else get_tag_content item (pys "guid") ns
  let p1 ← get_tag_content item (pys "pubDate") ns
  let pubStr ← if ¬p1.isEmpty then pure p1 else do
      let p2 ← get_tag_content item (pys "dc:date") ns
      if ¬p2.isEmpty then pure p2 else get_tag_content item (pys "date") ns
  let pubDate := (dateParser pubStr).getD now
  let fromContent : PyStr :=
    if ¬ns.isEmpty then
      match item.findTag (qualTag ns (pys "content")) with
      | some ce => (ce.text).getD []
      | none => []
    else []
  let d1 ← if ¬fromContent.isEmpty then pure fromContent
           else get_tag_content item (pys "description") ns
  let descr ← strip_html d1
  if ¬title.isEmpty ∨ ¬link.isEmpty then
    pure (some ⟨title, link, pubDate, descr.take 500, feed.name, feed.htmlUrl⟩)
  else pure none

/-- The outcome of `ET.fromstring` on the fetched document text: a
parse error or the root element. -/
inductive XDoc where
  | parseError : XDoc
  | tree : XElem → XDoc

/-- Models `parse_feed_xml` (lines 261-355).  The XML parse itself is
external, so its outcome is the `XDoc` input; `dateParser` abstracts
`parse_date` (lines 225-254, driven by `strptime`/`email.utils`), and
`now` stands for `datetime.now(timezone.utc)`.  A `ParseError` is
caught and yields `some []`; `none` models an uncaught exception
(only `strip_html`'s `chr` can raise one). -/
def parse_feed_xml (doc : XDoc) (feed : FeedInfo)
    (dateParser : PyStr → Option PyDateTime) (now : PyDateTime) : Option (List Article) :=
  match doc with
  | .parseError => some []
  | .tree root => do
    let isAtom := (pys "feed").isSuffixOf root.tag
                  || strContains root.tag (pys "http://www.w3.org/2005/Atom")
    let ns ← xmlNamespaceOf root.tag
    if isAtom then
      (findAllNS root (pys "entry") ns).foldlM (fun acc e => do
          match ← parseAtomEntry dateParser now feed ns e with
          | some a => pure (acc ++ [a])
          | none => pure acc) []
    else
      (findAllNS root (pys "item") ns).foldlM (fun acc e => do
          match ← parseRssItem dateParser now feed ns e with
          | some a => pure (acc ++ [a])
          | none => pure acc) []

/-- The network outcome of `urllib.request.urlopen` for one feed:
a raised `HTTPError`/`URLError`/timeout/other exception, or a response
with its status and the decoded body handed to `ET.fromstring`. -/
inductive FetchOutcome where
  | httpError : Nat → FetchOutcome
  | urlError : FetchOutcome
  | timeout : FetchOutcome
  | otherError : FetchOutcome
  | ok : Nat → XDoc → FetchOutcome

/-- Models `fetch_feed` (lines 362-395): every raised exception — HTTP error,
URL error, timeout, a non-200 status (re-raised as `HTTPError`), or an
exception propagating out of `parse_feed_xml` — is caught, logged and
turned into `[]`. -/
def fetch_feed (feed : FeedInfo) (outcome : FetchOutcome)
    (dateParser : PyStr → Option PyDateTime) (now : PyDateTime) : List Article :=
  match outcome with
  | .ok status doc =>
    if status ≠ 200 then []
    else (parse_feed_xml doc feed dateParser now).getD []
  | _ => []

/-- Models `fetch_all_feeds` (lines 398-419): a feed is counted as a success
exactly when `fetch_feed` returned a nonempty list (`if articles:`).
Completion order (`as_completed`) is abstracted by the input order;
the counts are order-independent. -/
def fetch_all_feeds (feeds : List (FeedInfo × FetchOutcome))
    (dateParser : PyStr → Option PyDateTime) (now : PyDateTime) :
    List Article × Nat × Nat :=
  feeds.foldl
    (fun acc fo =>
      let arts := fetch_feed fo.1 fo.2 dateParser now
      if arts.isEmpty then (acc.1, acc.2.1, acc.2.2 + 1)
      else (acc.1 ++ arts, acc.2.1 + 1, acc.2.2))
    ([], 0, 0)

theorem insertDesc_perm (key : α → Int) (x : α) (l : List α) :
    (insertDesc key x l).Perm (x :: l) := by
  induction l with
  | nil => exact List.Perm.refl _
  | cons y ys ih =>
    simp only [insertDesc]
    split
    · exact List.Perm.refl _
    · exact (ih.cons y).trans (List.Perm.swap x y ys)

theorem pySortDesc_perm (key : α → Int) (l : List α) : (pySortDesc key l).Perm l := by
  induction l with
  | nil => exact List.Perm.refl _
  | cons x xs ih => exact (insertDesc_perm key x _).trans (ih.cons x)

theorem insertDesc_pairwise (key : α → Int) (x : α) (l : List α)
    (h : l.Pairwise (fun a b => key b ≤ key a)) :
    (insertDesc key x l).Pairwise (fun a b => key b ≤ key a) := by
  induction l with
  | nil => simp [insertDesc]
  | cons y ys ih =>
    obtain ⟨hy, hys⟩ := List.pairwise_cons.mp h
    simp only [insertDesc]
    split
    · refine List.pairwise_cons.mpr ⟨?_, h⟩
      intro z hz
      rcases List.mem_cons.mp hz with rfl | hz2
      · assumption
      · exact le_trans (hy z hz2) (by assumption)
    · refine List.pairwise_cons.mpr ⟨?_, ih hys⟩
      intro z hz
      rcases List.mem_cons.mp ((insertDesc_perm key x ys).mem_iff.mp hz) with rfl | hz2
      · exact le_of_lt (lt_of_not_le (by assumption))
      · exact hy z hz2

theorem pySortDesc_pairwise (key : α → Int) (l : List α) :
    (pySortDesc key l).Pairwise (fun a b => key b ≤ key a) := by
  induction l with
  | nil => simp [pySortDesc]
  | cons x xs ih => exact insertDesc_pairwise key x _ ih

theorem insertDesc_filter_eq (key : α → Int) (x : α) (l : List α) (k : Int) :
    (insertDesc key x l).filter (fun z => key z == k) =
      (if key x = k then x :: l.filter (fun z => key z == k)
       else l.filter (fun z => key z == k)) := by
  induction l with
  | nil => by_cases h : key x = k <;> simp [insertDesc, List.filter_cons, h]
  | cons y ys ih =>
    simp only [insertDesc]
    by_cases hyx : key y ≤ key x
    · rw [if_pos hyx]
      by_cases hx : key x = k <;> simp [List.filter_cons, hx]
    · rw [if_neg hyx]
      by_cases hx : key x = k
      · have hy : ¬(key y = k) := by omega
        simp [List.filter_cons, hx, hy, ih]
      · by_cases hy : key y = k <;> simp [List.filter_cons, hx, hy, ih]

theorem pySortDesc_filter_eq (key : α → Int) (l : List α) (k : Int) :
    (pySortDesc key l).filter (fun z => key z == k) = l.filter (fun z => key z == k) := by
  induction l with
  | nil => rfl
  | cons x xs ih =>
    simp only [pySortDesc]
    rw [insertDesc_filter_eq]
    by_cases h : key x = k <;> simp [List.filter_cons, h, ih]

/-- Claim **C4.**  Time filtering keeps exactly the articles whose publish
timestamp — as the filter reinterprets it in UTC (see C10) — is
strictly after `now - hours`: membership requires the instant to
exceed the cutoff, an article strictly before the cutoff is excluded,
and one exactly at the cutoff is excluded as well. -/
theorem C4_time_filter_strict_cutoff (arts : List Article) (nowEpoch hours : Int)
    (a : Article) :
    (a ∈ recent_filter arts nowEpoch hours ↔
      a ∈ arts ∧ cutoff_time nowEpoch hours < dtInstant (replaceTzUtc a.pub_date))
    ∧ (dtInstant (replaceTzUtc a.pub_date) = cutoff_time nowEpoch hours →
        a ∉ recent_filter arts nowEpoch hours)
    ∧ (dtInstant (replaceTzUtc a.pub_date) < cutoff_time nowEpoch hours →
        a ∉ recent_filter arts nowEpoch hours) := by
  have hmem : a ∈ recent_filter arts nowEpoch hours ↔
      a ∈ arts ∧ cutoff_time nowEpoch hours < dtInstant (replaceTzUtc a.pub_date) := by
    simp [recent_filter, List.mem_filter]
  refine ⟨hmem, ?_, ?_⟩
  · intro heq hin
    have := (hmem.mp hin).2
    omega
  · intro hlt hin
    have := (hmem.mp hin).2
    omega

/-- Claim **C4 witness**: a concrete article whose (reinterpreted) publish
instant is exactly the cutoff is excluded from the filter output. -/
theorem C4_witness :
    (⟨pys "a", pys "l", ⟨400, none⟩, pys "d", pys "s", pys "u"⟩ : Article) ∉
        recent_filter [⟨pys "a", pys "l", ⟨400, none⟩, pys "d", pys "s", pys "u"⟩] 4000 1 :=
  (C4_time_filter_strict_cutoff _ 4000 1 _).2.1 (by decide)

/-- Claim **C10 counterexample.**  The claim says the age formatter also
reinterprets an aware timestamp as UTC by overwriting its offset.  It
does not: for a publish time of 12:00 at offset +08:00 with the
current instant 12:00 UTC, `humanize_time` reports 8 hours ago (it
converts using the offset), while the overwritten-as-UTC value would
give 0 minutes ago. -/
theorem C10_counterexample :
    humanize_time (12 * 3600) ⟨12 * 3600, some (8 * 3600)⟩ = .hoursAgo 8
    ∧ humanize_time (12 * 3600) (replaceTzUtc ⟨12 * 3600, some (8 * 3600)⟩) = .minutesAgo 0
    ∧ humanize_time (12 * 3600) ⟨12 * 3600, some (8 * 3600)⟩ ≠
        humanize_time (12 * 3600) (replaceTzUtc ⟨12 * 3600, some (8 * 3600)⟩) := by
  refine ⟨by decide, by decide, by decide⟩

/-- Claim **C10 (amended).**  The time filter reinterprets every publish
timestamp as UTC by overwriting its timezone (the offset is discarded,
so the compared instant is the bare wall-clock value); the age
formatter instead treats only a naive timestamp as UTC and converts an
aware one using its own offset. -/
theorem C10_tz_reinterpretation (d : PyDateTime) :
    dtInstant (replaceTzUtc d) = d.wall
    ∧ (d.tz = none → humanizeRef d = replaceTzUtc d)
    ∧ (∀ off, d.tz = some off →
        humanizeRef d = d ∧ dtInstant (humanizeRef d) = d.wall - off) := by
  refine ⟨by simp [dtInstant, replaceTzUtc], ?_, ?_⟩
  · intro h
    simp [humanizeRef, h]
  · intro off h
    constructor
    · simp [humanizeRef, h]
    · simp [humanizeRef, dtInstant, h]

/-- Claim **C10 witness**: the amended statement at a concrete aware
timestamp. -/
theorem C10_witness :
    humanizeRef ⟨43200, some 28800⟩ = ⟨43200, some 28800⟩
    ∧ dtInstant (humanizeRef ⟨43200, some 28800⟩) = 43200 - 28800 :=
  (C10_tz_reinterpretation ⟨43200, some 28800⟩).2.2 28800 rfl

/-- Claim **C3.**  Ranking (line 1083-1084) is a stable descending sort by
total score followed by taking the first `n`:
(i) the ranked list is a permutation of the input;
(ii) total scores are non-increasing along the ranked list — so an
article with a strictly greater total score than another ranks before
it;
(iii) stability: for every score value, the ranked list restricted to
that score equals the input restricted to that score (equal-score
articles keep their relative input order);
(iv) the selection is the `n`-prefix of the ranked list, and
(v) all articles are returned when fewer than `n` are available. -/
theorem C3_ranking_stable_desc_topN (l : List ScoredEntry) (n : Nat) :
    (rank_articles l).Perm l
    ∧ (∀ i j (hi : i < (rank_articles l).length) (hj : j < (rank_articles l).length),
        i < j →
        ((rank_articles l).get ⟨j, hj⟩).total_score ≤ ((rank_articles l).get ⟨i, hi⟩).total_score)
    ∧ (∀ k : Int, (rank_articles l).filter (fun e => e.total_score == k)
        = l.filter (fun e => e.total_score == k))
    ∧ top_articles l n = (rank_articles l).take n
    ∧ (l.length ≤ n → top_articles l n = rank_articles l) := by
  refine ⟨pySortDesc_perm _ l, ?_, fun k => pySortDesc_filter_eq _ l k, rfl, ?_⟩
  · intro i j hi hj hij
    have hp := pySortDesc_pairwise (fun e : ScoredEntry => e.total_score) l
    exact List.pairwise_iff_get.mp hp ⟨i, hi⟩ ⟨j, hj⟩ hij
  · intro hlen
    have hlen2 : (rank_articles l).length = l.length :=
      (pySortDesc_perm (fun e : ScoredEntry => e.total_score) l).length_eq
    unfold top_articles
    rw [List.take_of_length_le (by omega)]

/-- Claim **C3 witness**: on a concrete three-entry list with a tie, the
higher-scoring entry ranks first, the tied entries keep their input
order, and a short list is returned whole. -/
theorem C3_witness :
    ((rank_articles
        [⟨⟨pys "a1", [], ⟨0, none⟩, [], [], []⟩, 10, defaultScore⟩,
         ⟨⟨pys "a2", [], ⟨0, none⟩, [], [], []⟩, 25, defaultScore⟩,
         ⟨⟨pys "a3", [], ⟨0, none⟩, [], [], []⟩, 10, defaultScore⟩]).get
        ⟨1, by decide⟩).total_score ≤
      ((rank_articles
        [⟨⟨pys "a1", [], ⟨0, none⟩, [], [], []⟩, 10, defaultScore⟩,
         ⟨⟨pys "a2", [], ⟨0, none⟩, [], [], []⟩, 25, defaultScore⟩,
         ⟨⟨pys "a3", [], ⟨0, none⟩, [], [], []⟩, 10, defaultScore⟩]).get
        ⟨0, by decide⟩).total_score
    ∧ top_articles
        [⟨⟨pys "a1", [], ⟨0, none⟩, [], [], []⟩, 10, defaultScore⟩,
         ⟨⟨pys "a2", [], ⟨0, none⟩, [], [], []⟩, 25, defaultScore⟩,
         ⟨⟨pys "a3", [], ⟨0, none⟩, [], [], []⟩, 10, defaultScore⟩] 5
      = rank_articles
        [⟨⟨pys "a1", [], ⟨0, none⟩, [], [], []⟩, 10, defaultScore⟩,
         ⟨⟨pys "a2", [], ⟨0, none⟩, [], [], []⟩, 25, defaultScore⟩,
         ⟨⟨pys "a3", [], ⟨0, none⟩, [], [], []⟩, 10, defaultScore⟩] :=
  ⟨(C3_ranking_stable_desc_topN _ 5).2.1 0 1 (by decide) (by decide) (by decide),
   (C3_ranking_stable_desc_topN _ 5).2.2.2.2 (by decide)⟩

/-- All three dimensions of a score record lie in `[1, 10]`. -/
def validRec (r : ScoreRec) : Prop :=
  1 ≤ r.relevance ∧ r.relevance ≤ 10 ∧ 1 ≤ r.quality ∧ r.quality ≤ 10
  ∧ 1 ≤ r.timeliness ∧ r.timeliness ≤ 10

theorem validRec_default : validRec defaultScore := by
  refine ⟨?_, ?_, ?_, ?_, ?_, ?_⟩ <;> norm_num [defaultScore]

theorem clampDim_bounds {v : JVal} {n : Int} (h : clampDim v = some n) :
    1 ≤ n ∧ n ≤ 10 := by
  unfold clampDim at h
  cases hp : pyInt v with
  | none => rw [hp] at h; simp at h
  | some m =>
    rw [hp] at h
    simp only [Option.map_some', Option.some.injEq] at h
    omega

theorem scoreEntryRec_valid {o : List (PyStr × JVal)} {r : ScoreRec}
    (h : scoreEntryRec o = some r) : validRec r := by
  unfold scoreEntryRec at h
  obtain ⟨catOk, hcat, h2⟩ := Option.bind_eq_some.mp h
  obtain ⟨rel, hrel, h3⟩ := Option.bind_eq_some.mp h2
  obtain ⟨qua, hqua, h4⟩ := Option.bind_eq_some.mp h3
  obtain ⟨tim, htim, h5⟩ := Option.bind_eq_some.mp h4
  simp only [Option.pure_def, Option.some.injEq] at h5
  subst h5
  obtain ⟨hr1, hr2⟩ := clampDim_bounds hrel
  obtain ⟨hq1, hq2⟩ := clampDim_bounds hqua
  obtain ⟨ht1, ht2⟩ := clampDim_bounds htim
  exact ⟨hr1, hr2, hq1, hq2, ht1, ht2⟩

theorem dictInsert_all {V : Type} {P : V → Prop} {d : PyDict V} {k : JVal} {v : V}
    (hd : ∀ kv ∈ d, P kv.2) (hv : P v) : ∀ kv ∈ dictInsert d k v, P kv.2 := by
  induction d with
  | nil =>
    intro kv hkv
    rw [List.mem_singleton.mp hkv]
    exact hv
  | cons hd0 tl ih =>
    obtain ⟨k0, v0⟩ := hd0
    intro kv hkv
    simp only [dictInsert] at hkv
    split at hkv
    · rcases List.mem_cons.mp hkv with rfl | htl
      · exact hv
      · exact hd _ (List.mem_cons_of_mem _ htl)
    · rcases List.mem_cons.mp hkv with rfl | htl
      · exact hd _ (List.mem_cons_self _ _)
      · exact ih (fun kv h => hd kv (List.mem_cons_of_mem _ h)) _ htl

theorem dictUpdate_all {V : Type} {P : V → Prop} {d1 d2 : PyDict V}
    (h1 : ∀ kv ∈ d1, P kv.2) (h2 : ∀ kv ∈ d2, P kv.2) :
    ∀ kv ∈ dictUpdate d1 d2, P kv.2 := by
  induction d2 generalizing d1 with
  | nil => exact h1
  | cons x xs ih =>
    have heq : dictUpdate d1 (x :: xs) = dictUpdate (dictInsert d1 x.1 x.2) xs := rfl
    rw [heq]
    exact ih (dictInsert_all h1 (h2 x (List.mem_cons_self _ _)))
      (fun kv h => h2 kv (List.mem_cons_of_mem _ h))

theorem dictLookup_mem {V : Type} {d : PyDict V} {k : JVal} {v : V}
    (h : dictLookup d k = some v) : ∃ k0, (k0, v) ∈ d := by
  induction d with
  | nil => simp [dictLookup] at h
  | cons x xs ih =>
    obtain ⟨k0, v0⟩ := x
    simp only [dictLookup] at h
    split at h
    · injection h with h
      subst h
      exact ⟨k0, List.mem_cons_self _ _⟩
    · obtain ⟨k1, hk1⟩ := ih h
      exact ⟨k1, List.mem_cons_of_mem _ hk1⟩

theorem scoreResultStep_valid {acc acc' : PyDict ScoreRec} {r : JVal}
    (h : scoreResultStep acc r = some acc') (hacc : ∀ kv ∈ acc, validRec kv.2) :
    ∀ kv ∈ acc', validRec kv.2 := by
  cases r with
  | jnull => simp [scoreResultStep] at h
  | jbool b => simp [scoreResultStep] at h
  | jint n => simp [scoreResultStep] at h
  | jstr s => simp [scoreResultStep] at h
  | jlist l => simp [scoreResultStep] at h
  | jobj o =>
    simp only [scoreResultStep] at h
    split at h
    · injection h with h
      subst h
      exact hacc
    · split at h
      · injection h with h
        subst h
        exact hacc
      · obtain ⟨sr, hsr, h2⟩ := Option.bind_eq_some.mp h
        split at h2
        · injection h2 with h2
          subst h2
          exact dictInsert_all hacc (scoreEntryRec_valid hsr)
        · simp at h2

theorem scoreLoop_valid (items : List JVal) :
    ∀ acc acc', items.foldlM scoreResultStep acc = some acc' →
      (∀ kv ∈ acc, validRec kv.2) → ∀ kv ∈ acc', validRec kv.2 := by
  induction items with
  | nil =>
    intro acc acc' h hacc
    simp only [List.foldlM_nil, Option.pure_def, Option.some.injEq] at h
    subst h
    exact hacc
  | cons r rs ih =>
    intro acc acc' h hacc
    rw [List.foldlM_cons] at h
    obtain ⟨mid, hmid, hrest⟩ := Option.bind_eq_some.mp h
    exact ih mid acc' hrest (scoreResultStep_valid hmid hacc)

theorem scoresOfResponse_valid {parsed : JVal} {d : PyDict ScoreRec}
    (h : scoresOfResponse parsed = some d) : ∀ kv ∈ d, validRec kv.2 := by
  unfold scoresOfResponse at h
  obtain ⟨hk, hhk, h2⟩ := Option.bind_eq_some.mp h
  split at h2
  · cases hsub : pySubscript parsed "results" with
    | none => rw [hsub] at h2; simp at h2
    | some v =>
      rw [hsub] at h2
      cases v with
      | jlist items => exact scoreLoop_valid items [] d h2 (by simp)
      | jnull => injection h2 with h2; subst h2; simp
      | jbool b => injection h2 with h2; subst h2; simp
      | jint n => injection h2 with h2; subst h2; simp
      | jstr s => injection h2 with h2; subst h2; simp
      | jobj oo => injection h2 with h2; subst h2; simp
  · injection h2 with h2
    subst h2
    simp

theorem score_batch_valid (batch : List BatchItem) (outcome : AIOutcome) :
    ∀ kv ∈ score_batch batch outcome, validRec kv.2 := by
  cases outcome with
  | fail =>
    intro kv hkv
    obtain ⟨it, _, rfl⟩ := List.mem_map.mp hkv
    exact validRec_default
  | ok parsed =>
    cases hres : scoresOfResponse parsed with
    | some results =>
      intro kv hkv
      have : score_batch batch (.ok parsed) = results := by
        simp [score_batch, hres]
      rw [this] at hkv
      exact scoresOfResponse_valid hres kv hkv
    | none =>
      intro kv hkv
      have : score_batch batch (.ok parsed) =
          batch.map (fun it => (JVal.jint it.index, defaultScore)) := by
        simp [score_batch, hres]
      rw [this] at hkv
      obtain ⟨it, _, rfl⟩ := List.mem_map.mp hkv
      exact validRec_default

theorem score_articles_valid (arts : List Article) (outcomes : Nat → AIOutcome) :
    ∀ kv ∈ score_articles_with_ai arts outcomes, validRec kv.2 := by
  have H : ∀ (bs : List (Nat × List BatchItem)) (acc : PyDict ScoreRec),
      (∀ kv ∈ acc, validRec kv.2) →
      ∀ kv ∈ bs.foldl (fun acc p => dictUpdate acc (score_batch p.2 (outcomes p.1))) acc,
        validRec kv.2 := by
    intro bs
    induction bs with
    | nil => intro acc hacc; exact hacc
    | cons b rest ih =>
      intro acc hacc
      rw [List.foldl_cons]
      exact ih _ (dictUpdate_all hacc (score_batch_valid b.2 (outcomes b.1)))
  exact H _ [] (by simp)

theorem consumedScore_valid {scores : PyDict ScoreRec}
    (hs : ∀ kv ∈ scores, validRec kv.2) (i : Nat) : validRec (consumedScore scores i) := by
  unfold consumedScore
  cases hl : dictLookup scores (.jint i) with
  | none => exact validRec_default
  | some v =>
    obtain ⟨k0, hmem⟩ := dictLookup_mem hl
    exact hs (k0, v) hmem

/-- Claim **C1.**  Every scored article the pipeline hands downstream has its
total score equal to the arithmetic sum of the three dimensions, each
dimension in `[1, 10]`, and hence a total in `[3, 30]` — for **every**
AI outcome (out-of-range values are clamped; a non-numeric value makes
the batch fall back to the all-5 default, which is also in range). -/
theorem C1_total_is_clamped_sum (arts : List Article) (outcomes : Nat → AIOutcome)
    (e : ScoredEntry)
    (he : e ∈ mkScoredEntries arts (score_articles_with_ai arts outcomes)) :
    e.total_score = e.score_data.relevance + e.score_data.quality + e.score_data.timeliness
    ∧ 1 ≤ e.score_data.relevance ∧ e.score_data.relevance ≤ 10
    ∧ 1 ≤ e.score_data.quality ∧ e.score_data.quality ≤ 10
    ∧ 1 ≤ e.score_data.timeliness ∧ e.score_data.timeliness ≤ 10
    ∧ 3 ≤ e.total_score ∧ e.total_score ≤ 30 := by
  obtain ⟨p, hp, rfl⟩ := List.mem_map.mp he
  obtain ⟨h1, h2, h3, h4, h5, h6⟩ :=
    consumedScore_valid (score_articles_valid arts outcomes) p.1
  exact ⟨rfl, h1, h2, h3, h4, h5, h6, by simp; omega, by simp; omega⟩

/-- A concrete article used by witnesses. -/
def sampleArticle : Article :=
  ⟨pys "T", pys "http://l", ⟨0, none⟩, pys "D", pys "s", pys "http://s"⟩

/-- A concrete scoring response with an out-of-range, a below-range and
a string-typed dimension, an invalid category and non-list keywords. -/
def oddScoreResp : JVal :=
  .jobj [(pys "results", .jlist [.jobj
    [(pys "index", .jint 0), (pys "relevance", .jint 99), (pys "quality", .jint 0),
     (pys "timeliness", .jstr (pys "7")), (pys "category", .jstr (pys "nonsense")),
     (pys "keywords", .jbool true)]])]

/-- Claim **C1 witness**: with the odd concrete response above, the consumed
entry is clamped to `⟨10, 1, 7⟩` and its total is their sum. -/
theorem C1_witness :
    (⟨sampleArticle, 18, ⟨10, 1, 7, pys "other", []⟩⟩ : ScoredEntry).total_score
      = (⟨sampleArticle, 18, ⟨10, 1, 7, pys "other", []⟩⟩ : ScoredEntry).score_data.relevance
        + (⟨sampleArticle, 18, ⟨10, 1, 7, pys "other", []⟩⟩ : ScoredEntry).score_data.quality
        + (⟨sampleArticle, 18, ⟨10, 1, 7, pys "other", []⟩⟩ : ScoredEntry).score_data.timeliness :=
  (C1_total_is_clamped_sum [sampleArticle] (fun _ => .ok oddScoreResp)
    ⟨sampleArticle, 18, ⟨10, 1, 7, pys "other", []⟩⟩ (by decide)).1

theorem dictLookup_const {V : Type} {d : PyDict V} {v0 : V}
    (hall : ∀ kv ∈ d, kv.2 = v0) {k : JVal}
    (hk : ∃ kv ∈ d, normKey kv.1 = normKey k) : dictLookup d k = some v0 := by
  induction d with
  | nil => obtain ⟨kv, hkv, _⟩ := hk; simp at hkv
  | cons x xs ih =>
    obtain ⟨k0, u⟩ := x
    simp only [dictLookup]
    split
    · rw [show u = v0 from hall (k0, u) (List.mem_cons_self _ _)]
    · apply ih (fun kv h => hall kv (List.mem_cons_of_mem _ h))
      obtain ⟨kv, hkv, hkeq⟩ := hk
      rcases List.mem_cons.mp hkv with rfl | htl
      · exact absurd hkeq (by assumption)
      · exact ⟨kv, htl, hkeq⟩

/-- Claim **C2.**  (i) When the AI call for a batch fails, `score_batch`
substitutes the default Score Record (5/5/5, category `"other"`, no
keywords) for **every** index of that batch — the batch mapping is
exactly that assignment, and looking up any batch index in it yields
the default; (ii) an index absent from the aggregated mapping (the AI
omitted it) is consumed downstream as that same default; (iii) the
consumed mapping covers every input index: the scored list pairs every
one of the `n` input positions with a record. -/
theorem C2_batch_failure_defaults (arts : List Article) (outcomes : Nat → AIOutcome)
    (batch : List BatchItem) (k : Nat) (i : Nat) :
    (outcomes k = .fail →
      score_batch batch (outcomes k)
          = batch.map (fun it => (JVal.jint it.index, defaultScore))
      ∧ ∀ it ∈ batch,
          dictLookup (score_batch batch (outcomes k)) (.jint it.index) = some defaultScore)
    ∧ (dictLookup (score_articles_with_ai arts outcomes) (.jint i) = none →
        consumedScore (score_articles_with_ai arts outcomes) i = defaultScore)
    ∧ (mkScoredEntries arts (score_articles_with_ai arts outcomes)).length = arts.length := by
  refine ⟨?_, ?_, ?_⟩
  · intro hf
    rw [hf]
    refine ⟨rfl, ?_⟩
    intro it hit
    apply dictLookup_const
    · intro kv hkv
      obtain ⟨x, _, rfl⟩ := List.mem_map.mp hkv
      rfl
    · exact ⟨(JVal.jint it.index, defaultScore),
        List.mem_map_of_mem _ hit, rfl⟩
  · intro hnone
    unfold consumedScore
    rw [hnone]
    rfl
  · simp [mkScoredEntries]

/-- Claim **C2 witness**: a failing batch assigns the default record to its
index, and an index the AI never returned is consumed as the
default. -/
theorem C2_witness :
    score_batch [⟨0, pys "T", pys "D", pys "s", pys "http://l"⟩] ((fun _ => AIOutcome.fail) 0)
        = [(JVal.jint 0, defaultScore)]
    ∧ consumedScore (score_articles_with_ai [sampleArticle] (fun _ => AIOutcome.fail)) 5
        = defaultScore :=
  ⟨((C2_batch_failure_defaults [sampleArticle] (fun _ => AIOutcome.fail)
      [⟨0, pys "T", pys "D", pys "s", pys "http://l"⟩] 0 5).1 rfl).1,
   (C2_batch_failure_defaults [sampleArticle] (fun _ => AIOutcome.fail)
      [⟨0, pys "T", pys "D", pys "s", pys "http://l"⟩] 0 5).2.1 (by decide)⟩

/-- Claim **C5 counterexample.**  For an article whose description differs
from its title, a successfully parsed AI response that omits the
article's index leads to a consumed fallback whose summary is the
first 200 characters of the *description*, not the original title as
the claim states. -/
theorem C5_counterexample :
    dictLookup (summarize_articles [sampleArticle]
        (fun _ => .ok (.jobj [(pys "results", .jlist [])]))) (.jint 0) = none
    ∧ (consumedSummary (summarize_articles [sampleArticle]
        (fun _ => .ok (.jobj [(pys "results", .jlist [])]))) sampleArticle 0).summary
        = .jstr (sampleArticle.description.take 200)
    ∧ (consumedSummary (summarize_articles [sampleArticle]
        (fun _ => .ok (.jobj [(pys "results", .jlist [])]))) sampleArticle 0).summary
        ≠ .jstr sampleArticle.title := by
  refine ⟨by decide, by decide, by decide⟩

/-- Claim **C5 (amended).**  When the AI batch call raises, every article of
that batch is assigned the fallback record ⟨original title, original
title, empty rationale⟩; when instead the AI response merely omits an
article's index, the record consumed downstream defaults the
translated title to the original title, the summary to the first 200
characters of the article's description, and the rationale to the
empty string. -/
theorem C5_summary_fallbacks (batch : List BatchItem) (outcome : AIOutcome)
    (sums : PyDict SumRec) (a : Article) (i : Nat) :
    (outcome = .fail →
      summarize_batch batch outcome
        = batch.map (fun it =>
            (JVal.jint it.index, ⟨.jstr it.title, .jstr it.title, .jstr []⟩)))
    ∧ (dictLookup sums (.jint i) = none →
        consumedSummary sums a i
          = ⟨.jstr a.title, .jstr (a.description.take 200), .jstr []⟩) := by
  constructor
  · intro h
    rw [h]
    rfl
  · intro h
    unfold consumedSummary
    rw [h]
    rfl

/-- Claim **C5 witness**: the amended fallbacks at concrete inputs. -/
theorem C5_witness :
    summarize_batch [⟨0, pys "T", pys "D", pys "s", pys "http://l"⟩] .fail
        = [(JVal.jint 0, ⟨.jstr (pys "T"), .jstr (pys "T"), .jstr []⟩)]
    ∧ consumedSummary [] sampleArticle 0
        = ⟨.jstr sampleArticle.title, .jstr (sampleArticle.description.take 200), .jstr []⟩ :=
  ⟨(C5_summary_fallbacks [⟨0, pys "T", pys "D", pys "s", pys "http://l"⟩] .fail
      [] sampleArticle 0).1 rfl,
   (C5_summary_fallbacks [⟨0, pys "T", pys "D", pys "s", pys "http://l"⟩] .fail
      [] sampleArticle 0).2 rfl⟩

/-- A concrete feed catalog entry for counterexamples. -/
def sampleFeed : FeedInfo := ⟨pys "f", pys "http://x/rss", pys "http://x"⟩

/-- A syntactically valid feed document with no entries at all. -/
def emptyRssDoc : XDoc := .tree (.mk (pys "rss") [] none [])

/-- Claim **C7 counterexample.**  A feed retrieved with HTTP 200 whose valid
document parses without any error but yields no articles is counted as
a **failure** (`if articles:` is false), contradicting the claim that
a feed is counted as a failure exactly when its retrieval fails and
that every cleanly retrieved-and-parsed feed counts as a success. -/
theorem C7_counterexample :
    parse_feed_xml emptyRssDoc sampleFeed (fun _ => none) ⟨0, some 0⟩ = some []
    ∧ fetch_all_feeds [(sampleFeed, .ok 200 emptyRssDoc)] (fun _ => none) ⟨0, some 0⟩
        = ([], 0, 1) := by
  refine ⟨by decide, by decide⟩

theorem filter_length_add (p : α → Bool) (l : List α) :
    (l.filter p).length + (l.filter (fun x => !p x)).length = l.length := by
  induction l with
  | nil => rfl
  | cons x xs ih =>
    by_cases h : p x <;> simp [List.filter_cons, h] <;> omega

/-- Claim **C7 (amended).**  `fetch_all_feeds` never aborts: it returns the
flattened per-feed article lists together with
success = number of feeds contributing at least one article and
failure = number of feeds contributing none, so success + failure
equals the catalog size.  Every retrieval failure (HTTP error, URL
error, timeout, other exception, or a non-200 status) contributes zero
articles and is therefore counted as a failure; a feed retrieved and
parsed without error but yielding zero articles is **also** counted as
a failure. -/
theorem C7_fetch_counts (feeds : List (FeedInfo × FetchOutcome))
    (dp : PyStr → Option PyDateTime) (now : PyDateTime) :
    (fetch_all_feeds feeds dp now).1
        = (feeds.map (fun fo => fetch_feed fo.1 fo.2 dp now)).flatten
    ∧ (fetch_all_feeds feeds dp now).2.1
        = (feeds.filter (fun fo => !(fetch_feed fo.1 fo.2 dp now).isEmpty)).length
    ∧ (fetch_all_feeds feeds dp now).2.2
        = (feeds.filter (fun fo => (fetch_feed fo.1 fo.2 dp now).isEmpty)).length
    ∧ (fetch_all_feeds feeds dp now).2.1 + (fetch_all_feeds feeds dp now).2.2 = feeds.length
    ∧ (∀ f : FeedInfo, ∀ code, fetch_feed f (.httpError code) dp now = []
        ∧ fetch_feed f .urlError dp now = [] ∧ fetch_feed f .timeout dp now = []
        ∧ fetch_feed f .otherError dp now = [])
    ∧ (∀ (f : FeedInfo) (st : Nat) (doc : XDoc), st ≠ 200 →
        fetch_feed f (.ok st doc) dp now = []) := by
  have H : ∀ (fs : List (FeedInfo × FetchOutcome)) (acc : List Article × Nat × Nat),
      fs.foldl
        (fun acc fo =>
          let arts := fetch_feed fo.1 fo.2 dp now
          if arts.isEmpty then (acc.1, acc.2.1, acc.2.2 + 1)
          else (acc.1 ++ arts, acc.2.1 + 1, acc.2.2))
        acc
        = (acc.1 ++ (fs.map (fun fo => fetch_feed fo.1 fo.2 dp now)).flatten,
           acc.2.1 + (fs.filter (fun fo => !(fetch_feed fo.1 fo.2 dp now).isEmpty)).length,
           acc.2.2 + (fs.filter (fun fo => (fetch_feed fo.1 fo.2 dp now).isEmpty)).length) := by
    intro fs
    induction fs with
    | nil => intro acc; simp
    | cons x xs ih =>
      intro acc
      rw [List.foldl_cons, ih]
      by_cases hx : (fetch_feed x.1 x.2 dp now).isEmpty
      · have hnil : fetch_feed x.1 x.2 dp now = [] := List.isEmpty_iff.mp hx
        simp only [hnil, List.isEmpty_nil, if_true, List.map_cons, List.flatten_cons,
          List.filter_cons, hx, Bool.not_true, List.nil_append, List.length_cons,
          Prod.mk.injEq, true_and]
        constructor
        · simp
        · omega
      · simp only [List.map_cons, List.flatten_cons, List.filter_cons, hx, Bool.not_false,
          Prod.mk.injEq]
        rw [if_neg (by simpa using hx)]
        refine ⟨by simp [List.append_assoc], by simp <;> omega, by simp⟩
  have Hmain := H feeds ([], 0, 0)
  unfold fetch_all_feeds
  rw [Hmain]
  refine ⟨by simp, by simp, by simp, ?_, ?_, ?_⟩
  · simp only []
    have := filter_length_add (fun fo : FeedInfo × FetchOutcome =>
      !(fetch_feed fo.1 fo.2 dp now).isEmpty) feeds
    simp only [Bool.not_not] at this
    simpa using this
  · intro f code
    exact ⟨rfl, rfl, rfl, rfl⟩
  · intro f st doc h
    simp [fetch_feed, h]

/-- Claim **C7 witness**: a non-200 response contributes zero articles. -/
theorem C7_witness :
    fetch_feed sampleFeed (.ok 404 emptyRssDoc) (fun _ => none) ⟨0, some 0⟩ = [] :=
  (C7_fetch_counts [] (fun _ => none) ⟨0, some 0⟩).2.2.2.2.2 sampleFeed 404 emptyRssDoc
    (by decide)

/-- The `cat_groups` invariant: keys are distinct and every group is
homogeneous (each member's category equals the group key). -/
def goodGroups (gs : List (PyStr × List ScoredArticle)) : Prop :=
  (gs.map Prod.fst).Nodup ∧ ∀ p ∈ gs, ∀ a ∈ p.2, a.category = p.1

/-- The articles of category `c` listed by the groups `gs`, in order. -/
def joinFilter (gs : List (PyStr × List ScoredArticle)) (c : PyStr) : List ScoredArticle :=
  ((gs.map Prod.snd).flatten).filter (fun a => a.category == c)

theorem addToGroups_keys (gs : List (PyStr × List ScoredArticle)) (a : ScoredArticle) :
    ((addToGroups gs a).map Prod.fst = gs.map Prod.fst ∧ a.category ∈ gs.map Prod.fst)
    ∨ ((addToGroups gs a).map Prod.fst = gs.map Prod.fst ++ [a.category]
        ∧ a.category ∉ gs.map Prod.fst) := by
  induction gs with
  | nil => right; simp [addToGroups]
  | cons x xs ih =>
    obtain ⟨k, g⟩ := x
    by_cases hk : k = a.category
    · left
      simp [addToGroups, hk]
    · rcases ih with ⟨h1, h2⟩ | ⟨h1, h2⟩
      · left
        simp [addToGroups, hk, h1, h2]
      · right
        constructor
        · simp [addToGroups, hk, h1]
        · simp only [List.map_cons, List.mem_cons]
          rintro (h | h)
          · exact hk h.symm
          · exact h2 h

theorem addToGroups_good {gs : List (PyStr × List ScoredArticle)} {a : ScoredArticle}
    (h : goodGroups gs) : goodGroups (addToGroups gs a) := by
  obtain ⟨hnodup, hhomog⟩ := h
  constructor
  · rcases addToGroups_keys gs a with ⟨h1, _⟩ | ⟨h1, h2⟩
    · rw [h1]; exact hnodup
    · rw [h1]
      rw [List.nodup_append]
      exact ⟨hnodup, List.nodup_singleton _, by
        intro x hx hx2
        rw [List.mem_singleton.mp hx2] at hx
        exact h2 hx⟩
  · clear hnodup
    induction gs with
    | nil =>
      intro p hp x hx
      simp only [addToGroups, List.mem_singleton] at hp
      subst hp
      rw [List.mem_singleton.mp hx]
    | cons y ys ih =>
      obtain ⟨k, g⟩ := y
      intro p hp x hx
      simp only [addToGroups] at hp
      split at hp
      · rename_i hka
        rcases List.mem_cons.mp hp with hhd | htl
        · subst hhd
          rcases List.mem_append.mp hx with hg | ha
          · exact hhomog (k, g) (List.mem_cons_self _ _) x hg
          · rw [List.mem_singleton.mp ha]
            exact hka.symm
        · exact hhomog p (List.mem_cons_of_mem _ htl) x hx
      · rcases List.mem_cons.mp hp with hhd | htl
        · subst hhd
          exact hhomog (k, g) (List.mem_cons_self _ _) x hx
        · exact ih (fun q hq => hhomog q (List.mem_cons_of_mem _ hq)) p htl x hx

theorem joinFilter_nil_of_not_mem {gs : List (PyStr × List ScoredArticle)} {c : PyStr}
    (hhomog : ∀ p ∈ gs, ∀ a ∈ p.2, a.category = p.1)
    (hc : c ∉ gs.map Prod.fst) : joinFilter gs c = [] := by
  induction gs with
  | nil => rfl
  | cons x xs ih =>
    obtain ⟨k, g⟩ := x
    simp only [List.map_cons, List.mem_cons] at hc
    push_neg at hc
    unfold joinFilter
    simp only [List.map_cons, List.flatten_cons, List.filter_append]
    rw [List.filter_eq_nil_iff.mpr, List.nil_append]
    · exact ih (fun q hq => hhomog q (List.mem_cons_of_mem _ hq)) hc.2
    · intro a ha
      have := hhomog (k, g) (List.mem_cons_self _ _) a ha
      simp only [beq_iff_eq]
      rw [this]
      exact fun h => hc.1 h.symm

theorem addToGroups_joinFilter {gs : List (PyStr × List ScoredArticle)} {a : ScoredArticle}
    (h : goodGroups gs) (c : PyStr) :
    joinFilter (addToGroups gs a) c
      = joinFilter gs c ++ (if a.category = c then [a] else []) := by
  obtain ⟨hnodup, hhomog⟩ := h
  induction gs with
  | nil =>
    by_cases hc : a.category = c <;>
      simp [addToGroups, joinFilter, List.filter_cons, hc]
  | cons x xs ih =>
    obtain ⟨k, g⟩ := x
    simp only [addToGroups]
    split
    · rename_i hk
      unfold joinFilter
      simp only [List.map_cons, List.flatten_cons, List.filter_append]
      by_cases hc : a.category = c
      · have hxs : joinFilter xs c = [] := by
          apply joinFilter_nil_of_not_mem
            (fun q hq => hhomog q (List.mem_cons_of_mem _ hq))
          rw [← hc, ← hk]
          exact (List.nodup_cons.mp (by simpa using hnodup)).1
        unfold joinFilter at hxs
        simp [List.filter_append, hxs, hc, List.filter_cons]
      · simp [List.filter_append, hc, List.filter_cons, List.append_assoc]
    · rename_i hk
      unfold joinFilter
      simp only [List.map_cons, List.flatten_cons, List.filter_append]
      have ihx := ih (List.Nodup.of_cons (by simpa using hnodup))
        (fun q hq => hhomog q (List.mem_cons_of_mem _ hq))
      unfold joinFilter at ihx
      rw [ihx, List.append_assoc]

theorem cat_groups_fold (arts : List ScoredArticle) :
    ∀ gs : List (PyStr × List ScoredArticle), goodGroups gs →
      goodGroups (arts.foldl addToGroups gs)
      ∧ ∀ c, joinFilter (arts.foldl addToGroups gs) c
          = joinFilter gs c ++ arts.filter (fun a => a.category == c) := by
  induction arts with
  | nil => intro gs hgs; exact ⟨hgs, fun c => by simp⟩
  | cons a rest ih =>
    intro gs hgs
    rw [List.foldl_cons]
    obtain ⟨h1, h2⟩ := ih (addToGroups gs a) (addToGroups_good hgs)
    refine ⟨h1, fun c => ?_⟩
    rw [h2 c, addToGroups_joinFilter hgs c, List.filter_cons, List.append_assoc]
    by_cases hc : a.category = c <;> simp [hc]

theorem flatten_filter_nonempty (L : List (List α)) :
    (L.filter (fun l => !l.isEmpty)).flatten = L.flatten := by
  induction L with
  | nil => rfl
  | cons x xs ih =>
    by_cases hx : x.isEmpty
    · rw [List.isEmpty_iff.mp hx]
      simp [List.filter_cons, ih]
    · simp [List.filter_cons, hx, ih]

theorem flatten_eq_of_perm {L1 L2 : List (List α)} (hperm : L1.Perm L2)
    (hsub : (L2.filter (fun l => !l.isEmpty)).length ≤ 1) :
    L1.flatten = L2.flatten := by
  rw [← flatten_filter_nonempty L1, ← flatten_filter_nonempty L2]
  have hpf := hperm.filter (fun l => !l.isEmpty)
  cases hL2 : L2.filter (fun l => !l.isEmpty) with
  | nil =>
    rw [hL2] at hpf
    rw [List.Perm.eq_nil hpf]
  | cons l ls =>
    cases ls with
    | nil =>
      rw [hL2] at hpf
      rw [List.Perm.eq_singleton hpf]
    | cons l2 ls2 =>
      rw [hL2] at hsub
      simp only [List.length_cons] at hsub
      omega

theorem mapped_filter_subsingleton {gs : List (PyStr × List ScoredArticle)} {c : PyStr}
    (h : goodGroups gs) :
    ((gs.map (fun p => p.2.filter (fun a => a.category == c))).filter
        (fun l => !l.isEmpty)).length ≤ 1 := by
  obtain ⟨hnodup, hhomog⟩ := h
  induction gs with
  | nil => simp
  | cons x xs ih =>
    obtain ⟨k, g⟩ := x
    simp only [List.map_cons, List.filter_cons]
    by_cases hg : (g.filter (fun a => a.category == c)).isEmpty
    · rw [if_neg (by simp [hg])]
      exact ih (List.Nodup.of_cons (by simpa using hnodup))
        (fun q hq => hhomog q (List.mem_cons_of_mem _ hq))
    · rw [if_pos (by simp [hg])]
      have hk : k = c := by
        have hne : g.filter (fun a => a.category == c) ≠ [] := by
          intro hnil
          exact hg (by rw [hnil]; rfl)
        rcases List.exists_mem_of_ne_nil _ hne with ⟨a, ha⟩
        obtain ⟨hag, hac⟩ := List.mem_filter.mp ha
        have hcat : a.category = k := hhomog (k, g) (List.mem_cons_self _ _) a hag
        rw [← hcat]
        exact beq_iff_eq.mp hac
      have hrest : (xs.map (fun p => p.2.filter (fun a => a.category == c))).filter
          (fun l => !l.isEmpty) = [] := by
        apply List.filter_eq_nil_iff.mpr
        intro l hl
        obtain ⟨q, hq, rfl⟩ := List.mem_map.mp hl
        have hqk : q.1 ≠ c := by
          intro hqc
          have hknotin : k ∉ xs.map Prod.fst :=
            (List.nodup_cons.mp (by simpa using hnodup)).1
          exact hknotin (by
            rw [hk, ← hqc]
            exact List.mem_map_of_mem _ hq)
        have hqe : q.2.filter (fun a => a.category == c) = [] := by
          apply List.filter_eq_nil_iff.mpr
          intro a ha
          have := hhomog q (List.mem_cons_of_mem _ hq) a ha
          simp only [beq_iff_eq, this]
          exact hqk
        simp [hqe]
      rw [hrest]
      simp

theorem joinFilter_rw (gs : List (PyStr × List ScoredArticle)) (c : PyStr) :
    joinFilter gs c = (gs.map (fun p => p.2.filter (fun a => a.category == c))).flatten := by
  unfold joinFilter
  rw [List.filter_flatten, List.map_map]
  rfl

theorem joinFilter_perm {gs gs' : List (PyStr × List ScoredArticle)}
    (hperm : gs'.Perm gs) (hgood : goodGroups gs) (c : PyStr) :
    joinFilter gs' c = joinFilter gs c := by
  rw [joinFilter_rw, joinFilter_rw]
  exact flatten_eq_of_perm (hperm.map _) (mapped_filter_subsingleton hgood)

/-- A concrete scored article with the given title and category. -/
def showArt (t cat : String) : ScoredArticle :=
  ⟨pys t, [], ⟨0, none⟩, [], [], [], 15, 5, 5, 5, pys cat, [],
   .jstr [], .jstr [], .jstr []⟩

/-- Claim **C6 counterexample.**  With exactly three articles the showcase
shows all three, and the category sections *also* contain all three —
not the "remaining articles after the showcase" (which would be the
empty list), contradicting the claim. -/
theorem C6_counterexample :
    showcase_articles [showArt "a1" "ai-ml", showArt "a2" "ai-ml", showArt "a3" "security"]
        = [showArt "a1" "ai-ml", showArt "a2" "ai-ml", showArt "a3" "security"]
    ∧ category_section_articles
        [showArt "a1" "ai-ml", showArt "a2" "ai-ml", showArt "a3" "security"]
        = [showArt "a1" "ai-ml", showArt "a2" "ai-ml", showArt "a3" "security"]
    ∧ ([showArt "a1" "ai-ml", showArt "a2" "ai-ml", showArt "a3" "security"]
        : List ScoredArticle).drop 3 = []
    ∧ category_section_articles
        [showArt "a1" "ai-ml", showArt "a2" "ai-ml", showArt "a3" "security"]
        ≠ ([showArt "a1" "ai-ml", showArt "a2" "ai-ml", showArt "a3" "security"]
            : List ScoredArticle).drop 3 := by
  refine ⟨by decide, by decide, by decide, by decide⟩

/-- Claim **C6 (amended).**  The rendered digest contains the top-3 showcase
exactly when at least 3 articles qualify (showing the first three in
rank order), and the category-grouped sections then list **all**
articles — including the showcased ones: for every category, the
section content of that category is precisely the ranked articles of
that category in their ranked order, and the sections are ordered by
descending member count. -/
theorem C6_report_structure (arts : List ScoredArticle) :
    showcase_articles arts = (if 3 ≤ arts.length then arts.take 3 else [])
    ∧ (showcase_articles arts ≠ [] ↔ 3 ≤ arts.length)
    ∧ (∀ c : PyStr, (category_section_articles arts).filter (fun a => a.category == c)
        = arts.filter (fun a => a.category == c))
    ∧ (sorted_cats arts).Pairwise (fun p q => q.2.length ≤ p.2.length) := by
  refine ⟨rfl, ?_, ?_, ?_⟩
  · unfold showcase_articles
    by_cases h : 3 ≤ arts.length
    · rw [if_pos h]
      constructor
      · intro _
        exact h
      · intro _ hnil
        have hlen3 : (arts.take 3).length = 3 := by
          rw [List.length_take]
          omega
        rw [hnil] at hlen3
        simp at hlen3
    · rw [if_neg h]
      constructor
      · intro hne
        exact absurd rfl hne
      · intro hh
        exact absurd hh h
  · intro c
    have hfold := cat_groups_fold arts [] ⟨by simp, by simp⟩
    have hperm : (sorted_cats arts).Perm (cat_groups arts) := pySortDesc_perm _ _
    have hjf : joinFilter (sorted_cats arts) c = joinFilter (cat_groups arts) c :=
      joinFilter_perm hperm hfold.1 c
    have hrfl : (category_section_articles arts).filter (fun a => a.category == c)
        = joinFilter (sorted_cats arts) c := rfl
    have hfe : joinFilter (cat_groups arts) c
        = joinFilter [] c ++ arts.filter (fun a => a.category == c) := hfold.2 c
    rw [hrfl, hjf, hfe]
    simp [joinFilter]
  · have hpw := pySortDesc_pairwise (fun p : PyStr × List ScoredArticle => (p.2.length : Int))
      (cat_groups arts)
    exact hpw.imp (fun h => by exact_mod_cast h)

/-- Claim **C6 witness**: with three concrete articles the showcase section
is present. -/
theorem C6_witness :
    showcase_articles [showArt "a1" "ai-ml", showArt "a2" "ai-ml", showArt "a3" "security"]
      ≠ [] :=
  (C6_report_structure
    [showArt "a1" "ai-ml", showArt "a2" "ai-ml", showArt "a3" "security"]).2.1.mpr
    (by decide)

/-- The link selection exactly as the claim words it (a refinement
reference for comparison — **not** the code): the `href` of the first
`link` element whose `rel` attribute is `"alternate"` or absent. -/
def claimAtomLink (links : List XElem) : PyStr :=
  match links.find? (fun e =>
      e.attrVal (pys "rel") == some (pys "alternate")
      || (e.attrVal (pys "rel")).isNone) with
  | some e => e.getAttr (pys "href") []
  | none => []

/-- Claim **C8 counterexample.**  For a `link` element with no attributes at
all (rel absent, no `href`) followed by a `rel="alternate"` link, the
code selects the second element's `href`, while the claim's rule — the
`href` of the *first* element whose `rel` is alternate or absent —
selects the attribute-less first element and yields the empty link. -/
theorem C8_counterexample :
    atomLink [.mk (pys "link") [] none [],
              .mk (pys "link") [(pys "rel", pys "alternate"), (pys "href", pys "http://alt")] none []]
        = pys "http://alt"
    ∧ claimAtomLink [.mk (pys "link") [] none [],
              .mk (pys "link") [(pys "rel", pys "alternate"), (pys "href", pys "http://alt")] none []]
        = []
    ∧ atomLink [.mk (pys "link") [] none [],
              .mk (pys "link") [(pys "rel", pys "alternate"), (pys "href", pys "http://alt")] none []]
        ≠ claimAtomLink [.mk (pys "link") [] none [],
              .mk (pys "link") [(pys "rel", pys "alternate"), (pys "href", pys "http://alt")] none []] := by
  refine ⟨by decide, by decide, by decide⟩

/-- Claim **C8 (amended).**  The article link is the `href` of the first
`link` element that has a **nonempty `href`** and whose `rel`
attribute is `"alternate"`, absent, or empty (the code reads a missing
`rel` and `rel=""` identically); in particular, a `rel="self"` link
followed by a `rel="alternate"` link resolves to the alternate's
`href`, not the first link encountered. -/
theorem C8_atom_link_selection (links : List XElem) (selfHref altHref : PyStr) :
    atomLink links
      = (match links.find? (fun e => decide (¬(e.getAttr (pys "href") []).isEmpty
            ∧ ((e.getAttr (pys "rel") []) = pys "alternate"
                ∨ (e.getAttr (pys "rel") []).isEmpty))) with
         | some e => e.getAttr (pys "href") []
         | none => [])
    ∧ (altHref ≠ [] →
        atomLink
          [.mk (pys "link") [(pys "rel", pys "self"), (pys "href", selfHref)] none [],
           .mk (pys "link") [(pys "rel", pys "alternate"), (pys "href", altHref)] none []]
          = altHref) := by
  constructor
  · induction links with
    | nil => rfl
    | cons e es ih =>
      by_cases hc : ¬(e.getAttr (pys "href") []).isEmpty
          ∧ ((e.getAttr (pys "rel") []) = pys "alternate"
              ∨ (e.getAttr (pys "rel") []).isEmpty)
      · have hd : decide (¬(e.getAttr (pys "href") []).isEmpty
            ∧ ((e.getAttr (pys "rel") []) = pys "alternate"
                ∨ (e.getAttr (pys "rel") []).isEmpty)) = true := decide_eq_true hc
        simp only [atomLink, List.find?_cons, hd, if_true]
        rw [if_pos hc]
      · have hd : decide (¬(e.getAttr (pys "href") []).isEmpty
            ∧ ((e.getAttr (pys "rel") []) = pys "alternate"
                ∨ (e.getAttr (pys "rel") []).isEmpty)) = false := decide_eq_false hc
        simp only [atomLink, List.find?_cons, hd, Bool.false_eq_true, if_false]
        rw [if_neg hc]
        exact ih
  · intro hne
    have hks : ((pys "rel" : PyStr) == pys "rel") = true := by decide
    have hkh : ((pys "rel" : PyStr) == pys "href") = false := by decide
    have hkr : ((pys "href" : PyStr) == pys "rel") = false := by decide
    have hhh : ((pys "href" : PyStr) == pys "href") = true := by decide
    have hsa : ¬(pys "self" = (pys "alternate" : PyStr)) := by decide
    have hse : (pys "self" : PyStr).isEmpty = false := by decide
    have hAlt : altHref.isEmpty = false := by
      cases altHref
      · exact absurd rfl hne
      · rfl
    simp only [atomLink, XElem.getAttr, XElem.attrs, List.lookup, hks, hkh, hkr,
      hhh, Option.getD_some, hsa, hse, hAlt]
    simp

/-- Claim **C8 witness**: the self-then-alternate resolution at concrete
hrefs. -/
theorem C8_witness :
    atomLink
      [.mk (pys "link") [(pys "rel", pys "self"), (pys "href", pys "http://s")] none [],
       .mk (pys "link") [(pys "rel", pys "alternate"), (pys "href", pys "http://a")] none []]
      = pys "http://a" :=
  (C8_atom_link_selection [] (pys "http://s") (pys "http://a")).2 (by decide)

/-- Claim **C9 (code bug).**  The Feed Parser is specified never to throw
outward, yet the hand-written numeric-reference pass of `strip_html`
calls `chr` on the decoded code, and `chr` raises `ValueError` above
`0x10FFFF`.  An Atom entry whose title text is the double-escaped
reference `&amp;#1114112;` (as delivered by the XML parser) reaches
that call: `html.unescape` first rewrites it to `&#1114112;` (the
stdlib pass replaces out-of-range references safely, so only the
double-escaped form survives it), the custom regex then matches, and
`chr(1114112)` raises — the exception propagates out of
`parse_feed_xml` (`none`; its caller `fetch_feed` then swallows it and
drops the entire feed).  A document that fails XML parsing, by
contrast, does yield the empty list as the claim states. -/
theorem C9_parser_can_raise :
    strip_html (pys "&amp;#1114112;") = none
    ∧ parse_feed_xml
        (.tree (.mk (pys "feed") [] none
          [.mk (pys "entry") [] none
            [.mk (pys "title") [] (some (pys "&amp;#1114112;")) []]]))
        sampleFeed (fun _ => none) ⟨0, some 0⟩ = none
    ∧ parse_feed_xml .parseError sampleFeed (fun _ => none) ⟨0, some 0⟩ = some [] := by
  refine ⟨by decide, by decide, by decide⟩
